import Mathlib

/-!
Verification development for `convert_gridmove_to_kzones.py`, a converter
from GridMove `.ini`-style grid templates to KZones layout JSON.

Modelling conventions:
* Python floats are modelled as exact rationals (`ℚ`).  Every numeric value
  exercised here is exactly representable, and the program only performs
  `+ - * /`, `min`, `max`, clamping and rounding on them.
* `eval(expr, {"__builtins__": None}, VARS)` is modelled by a recursive
  descent lexer/parser/evaluator for the expression fragment reachable
  through the allow-listed characters: numeric literals in CPython's
  integer and float forms (hexadecimal/octal/binary, underscore
  separators, signed exponents), the names the evaluation environment
  binds (the six monitor constants plus `__builtins__`, which the globals
  dict binds to `None`), the keyword literals `None`/`True`/`False`,
  unary `+`/`-`, binary `+ - * / // **`, parentheses, the short-circuit
  operators `or`/`and`, `not`, and conditional expressions.  Attribute
  access, calls, comparisons, `is`/`in`, `lambda` and complex literals are
  outside the fragment: the model reports a syntax error there, where
  CPython may evaluate.  A power with a non-integer exponent generally has
  no exact rational value, and the model reports it as `nonRationalPower`
  instead of approximating.  Failures of the hosted evaluation are
  explicit; the `ValueError` raised by the character allow-list check is a
  distinct error.
* `round(x, 3)` is Python's round-half-to-even at three decimals, modelled
  exactly on `ℚ`.
* File I/O: `convert_file` writes its output only after `parse_groups` and
  `convert` have succeeded, so a run is modelled as an `Except` value whose
  `error` case means the run aborted before any file was written.
-/

namespace GM

/-- Error outcomes of evaluating one expression (and hence of a whole run).
`unsafeExpression` is the `ValueError` raised by the `SAFE_PATTERN` check in
`safe_eval`; the other constructors stand for the exceptions the hosted
`eval` raises on allow-listed input: a syntax error from compiling the
expression, an unbound-name failure (a `NameError`, surfacing as `TypeError`
under the `{"__builtins__": None}` globals), a `TypeError` from using
`None` as a number, a `ZeroDivisionError`, and a power whose exact value
is not rational (CPython computes a float or complex approximation there;
the exact model declines instead of approximating). -/
inductive EvalErr where
  | unsafeExpression
  | parseError
  | nameError
  | typeError
  | divByZero
  | nonRationalPower
deriving DecidableEq, Repr

/-- A value of the modelled expression fragment: a Python number (ints,
bools and floats collapse to an exact rational) or `None` — the value of
the `None` keyword and of the `__builtins__` global. -/
inductive PyVal where
  | num (q : ℚ)
  | none
deriving DecidableEq, Repr

/-- Tokens of the expression language accepted by `eval` on the character
set that `SAFE_PATTERN` allows: numeric literals, `None` (`True`/`False`
lex to the numbers 1 and 0), names, the expression keywords
`or and not if else`, any other reserved keyword (`kwOther`, always a
syntax error in expression position), and the operator symbols. -/
inductive Token where
  | num (q : ℚ)
  | noneLit
  | ident (s : String)
  | kwOr
  | kwAnd
  | kwNot
  | kwIf
  | kwElse
  | kwOther
  | plus
  | minus
  | star
  | slash
  | dstar
  | dslash
  | lparen
  | rparen
deriving DecidableEq, Repr

/-- Abstract syntax of the expressions `safe_eval` evaluates: numeric and
`None` literals, names, unary `+`/`-`, binary `+ - * / // **`, the
short-circuit operators `or`/`and`, `not`, and conditional expressions
`t if c else e` (`condE c t e`).  Attribute access, calls, comparisons,
`is`/`in`, `lambda` and complex literals are outside the modelled
fragment (see the header notes). -/
inductive Expr where
  | num (q : ℚ)
  | noneLit
  | var (n : String)
  | pos (e : Expr)
  | neg (e : Expr)
  | add (a b : Expr)
  | sub (a b : Expr)
  | mul (a b : Expr)
  | div (a b : Expr)
  | floordiv (a b : Expr)
  | pow (a b : Expr)
  | orE (a b : Expr)
  | andE (a b : Expr)
  | notE (e : Expr)
  | condE (c t e : Expr)
deriving DecidableEq, Repr

/-- The fixed monitor-geometry bindings (`VARS` in the script): the monitor
is treated as a percentage space with origin (0,0) and size (100,100). -/
def VARS : List (String × ℚ) :=
  [("Monitor1Left", 0), ("Monitor1Top", 0), ("Monitor1Width", 100),
   ("Monitor1Height", 100), ("Monitor1Right", 100), ("Monitor1Bottom", 100)]

/-- Name lookup of the hosted `eval`: the `VARS` locals first, then the
globals dict `{"__builtins__": None}`, which makes `__builtins__` a
seventh resolvable name whose value is `None`. -/
def lookupVar (n : String) : Option PyVal :=
  match VARS.find? (fun p => p.1 == n) with
  | some p => some (PyVal.num p.2)
  | Option.none => if n = "__builtins__" then some PyVal.none else Option.none

/-- The whitespace class of Python's `re` pattern `\s` for text patterns
(also the set `str.strip` removes): ASCII whitespace, the information
separator characters, and the Unicode space characters. -/
def pySpace (c : Char) : Bool :=
  c == ' ' || c == '\t' || c == '\n' || c == '\r' || c == '\x0b' || c == '\x0c' ||
  c == '\x1c' || c == '\x1d' || c == '\x1e' || c == '\x1f' || c == '\x85' ||
  c == '\xa0' || c == '\u1680' || ('\u2000' ≤ c && c ≤ '\u200a') ||
  c == '\u2028' || c == '\u2029' || c == '\u202f' || c == '\u205f' || c == '\u3000'

/-- Membership in the character class of `SAFE_PATTERN`:
`[A-Za-z0-9_\.\+\-\*\/\(\)\s]`, with `\s` the full `re` whitespace class. -/
def allowedChar (c : Char) : Bool :=
  c.isAlpha || c.isDigit || c == '_' || c == '.' || c == '+' || c == '-' ||
  c == '*' || c == '/' || c == '(' || c == ')' || pySpace c

/-- Whitespace the tokenizer of the hosted `eval` skips between tokens:
space, tab and formfeed.  A newline, vertical tab or Unicode space inside
an expression is a syntax error even though `SAFE_PATTERN` lets it
through; trailing newlines are tolerated (see `lexChars`). -/
def isTokWs (c : Char) : Bool :=
  c == ' ' || c == '\t' || c == '\x0c'

/-- First character of a Python identifier (ASCII fragment). -/
def isIdentStart (c : Char) : Bool :=
  c.isAlpha || c == '_'

/-- Later character of a Python identifier (ASCII fragment). -/
def isIdentChar (c : Char) : Bool :=
  c.isAlpha || c.isDigit || c == '_'

/-- Hexadecimal digit. -/
def isHexD (c : Char) : Bool :=
  c.isDigit || ('a' ≤ c && c ≤ 'f') || ('A' ≤ c && c ≤ 'F')

/-- Octal digit. -/
def isOctD (c : Char) : Bool :=
  '0' ≤ c && c ≤ '7'

/-- Binary digit. -/
def isBinD (c : Char) : Bool :=
  c == '0' || c == '1'

/-- Value of one digit character, for bases up to 16. -/
def digitVal (c : Char) : ℕ :=
  if c.isDigit then c.toNat - '0'.toNat
  else if 'a' ≤ c && c ≤ 'f' then c.toNat - 'a'.toNat + 10
  else if 'A' ≤ c && c ≤ 'F' then c.toNat - 'A'.toNat + 10
  else 0

/-- Value of a list of decimal digit characters. -/
def natOfDigits (l : List Char) : ℕ :=
  l.foldl (fun n c => n * 10 + (c.toNat - '0'.toNat)) 0

/-- Value of a list of digit characters in base `b`. -/
def natOfDigitsBase (b : ℕ) (l : List Char) : ℕ :=
  l.foldl (fun n c => n * b + digitVal c) 0

/-- Scan `(["_"] digit)*` greedily from the head of the list: the digits
collected (underscore separators dropped) and the unconsumed rest.  A
leading underscore is accepted when a digit follows, as after the base
prefix of `0x_10`; a double or trailing underscore stops the scan. -/
def scanDigitsGo (isD : Char → Bool) : List Char → List Char × List Char
  | '_' :: c :: rest =>
    if isD c then
      let (ds, r) := scanDigitsGo isD rest
      (c :: ds, r)
    else ([], '_' :: c :: rest)
  | c :: rest =>
    if isD c then
      let (ds, r) := scanDigitsGo isD rest
      (c :: ds, r)
    else ([], c :: rest)
  | [] => ([], [])

/-- Scan `digit (["_"] digit)*` greedily: like `scanDigitsGo` but the
first character must itself be a digit (CPython's `digitpart`). -/
def scanDigits (isD : Char → Bool) : List Char → List Char × List Char
  | c :: rest =>
    if isD c then
      let (ds, r) := scanDigitsGo isD rest
      (c :: ds, r)
    else ([], c :: rest)
  | [] => ([], [])

/-- Scan an exponent `("e"|"E") [sign] digitpart`; `Option.none` when the
head is not a complete exponent (the characters are then left for the next
token, as CPython's tokenizer regex does). -/
def scanExponent (l : List Char) : Option (Bool × List Char × List Char) :=
  match l with
  | e :: rest =>
    if e == 'e' || e == 'E' then
      match rest with
      | s :: rest2 =>
        if s == '+' || s == '-' then
          match scanDigits Char.isDigit rest2 with
          | ([], _) => Option.none
          | (eds, r3) => some (s == '-', eds, r3)
        else
          match scanDigits Char.isDigit rest with
          | ([], _) => Option.none
          | (eds, r3) => some (false, eds, r3)
      | [] => Option.none
    else Option.none
  | [] => Option.none

/-- Scan a decimal integer or float literal greedily: optional integer
part, optional `.` and fraction part, optional signed exponent; a pure
integer must not have a misleading leading zero (`01` is a syntax error
but `00`, `0_0`, `01.5` and `01e3` are fine, as in CPython). -/
def scanDecNumber (l : List Char) : Option (ℚ × List Char) :=
  let (ip, r1) := scanDigits Char.isDigit l
  let (fp, r2, hasDot) :=
    match r1 with
    | '.' :: r1b =>
      let (fp, r2) := scanDigits Char.isDigit r1b
      (fp, r2, true)
    | _ => ([], r1, false)
  if ip.isEmpty && fp.isEmpty then Option.none
  else
    let mant : ℚ := (natOfDigits ip : ℚ) + (natOfDigits fp : ℚ) / (10 : ℚ) ^ fp.length
    match scanExponent r2 with
    | some (eneg, eds, r3) =>
      let ex : ℚ := (10 : ℚ) ^ natOfDigits eds
      some ((if eneg then mant / ex else mant * ex), r3)
    | Option.none =>
      if !hasDot && ip.head? == some '0' && ip.any (fun d => d != '0') then Option.none
      else some (mant, r2)

/-- Scan a Python numeric literal greedily from the head of the character
list, following CPython's tokenizer: hexadecimal, octal and binary
integers (`0x10`, `0o17`, `0b101`), decimal integers, and floats with
optional fraction and signed exponent (`1e3`, `1.e3`, `.5e-2`), all with
single-underscore separators (`1_000`).  Returns the exact value and the
unconsumed rest, or `Option.none` when the head is not a valid literal. -/
def scanNumber (l : List Char) : Option (ℚ × List Char) :=
  match l with
  | '0' :: c :: rest =>
    if c == 'x' || c == 'X' then
      match scanDigitsGo isHexD rest with
      | ([], _) => Option.none
      | (ds, r) => some ((natOfDigitsBase 16 ds : ℚ), r)
    else if c == 'o' || c == 'O' then
      match scanDigitsGo isOctD rest with
      | ([], _) => Option.none
      | (ds, r) => some ((natOfDigitsBase 8 ds : ℚ), r)
    else if c == 'b' || c == 'B' then
      match scanDigitsGo isBinD rest with
      | ([], _) => Option.none
      | (ds, r) => some ((natOfDigitsBase 2 ds : ℚ), r)
    else scanDecNumber ('0' :: c :: rest)
  | _ => scanDecNumber l

/-- Python's reserved keywords: in expression position only
`or and not if else True False None` play a role; every other keyword is
a syntax error there. -/
def pyKeywords : List String :=
  ["False", "None", "True", "and", "as", "assert", "async", "await", "break",
   "class", "continue", "def", "del", "elif", "else", "except", "finally",
   "for", "from", "global", "if", "import", "in", "is", "lambda", "nonlocal",
   "not", "or", "pass", "raise", "return", "try", "while", "with", "yield"]

/-- Token of a scanned word: the expression keywords and keyword literals
get their tokens, any other reserved keyword the inert `kwOther`, and
anything else is an ordinary name. -/
def keywordToken (w : String) : Option Token :=
  if w = "or" then some Token.kwOr
  else if w = "and" then some Token.kwAnd
  else if w = "not" then some Token.kwNot
  else if w = "if" then some Token.kwIf
  else if w = "else" then some Token.kwElse
  else if w = "True" then some (Token.num 1)
  else if w = "False" then some (Token.num 0)
  else if w = "None" then some Token.noneLit
  else if w ∈ pyKeywords then some Token.kwOther
  else Option.none

/-- Fueled lexer over the allow-listed character set.  Each step consumes
at least one character, so fuel `length + 1` always suffices. -/
def lexGo : ℕ → List Char → Except EvalErr (List Token)
  | 0, _ => .error .parseError
  | _ + 1, [] => .ok []
  | f + 1, c :: cs =>
    if isTokWs c then lexGo f cs
    else if c.isDigit || c == '.' then
      match scanNumber (c :: cs) with
      | some (q, rest) => do
        let ts ← lexGo f rest
        return Token.num q :: ts
      | Option.none => .error .parseError
    else if isIdentStart c then
      let w : String := ⟨(c :: cs).takeWhile isIdentChar⟩
      let rest := (c :: cs).dropWhile isIdentChar
      match keywordToken w with
      | some tok => do
        let ts ← lexGo f rest
        return tok :: ts
      | Option.none => do
        let ts ← lexGo f rest
        return Token.ident w :: ts
    else if c == '+' then do
      let ts ← lexGo f cs
      return Token.plus :: ts
    else if c == '-' then do
      let ts ← lexGo f cs
      return Token.minus :: ts
    else if c == '*' then
      match cs with
      | '*' :: cs2 => do
        let ts ← lexGo f cs2
        return Token.dstar :: ts
      | _ => do
        let ts ← lexGo f cs
        return Token.star :: ts
    else if c == '/' then
      match cs with
      | '/' :: cs2 => do
        let ts ← lexGo f cs2
        return Token.dslash :: ts
      | _ => do
        let ts ← lexGo f cs
        return Token.slash :: ts
    else if c == '(' then do
      let ts ← lexGo f cs
      return Token.lparen :: ts
    else if c == ')' then do
      let ts ← lexGo f cs
      return Token.rparen :: ts
    else .error .parseError

/-- Trailing newlines and whitespace, which `eval` tolerates at the end of
its source even though a newline inside the expression is an error. -/
def dropTrailingWs (l : List Char) : List Char :=
  (l.reverse.dropWhile (fun c => isTokWs c || c == '\n' || c == '\r')).reverse

/-- Lex a character list, with enough fuel for its length. -/
def lexChars (l : List Char) : Except EvalErr (List Token) :=
  lexGo (l.length + 1) (dropTrailingWs l)

mutual

/-- Conditional-expression level, the parser's entry: `t if c else e`,
with the condition and the first branch at the `or` level and the `else`
branch recursing at this level, as in Python's grammar. -/
def parseTernaryF : ℕ → List Token → Except EvalErr (Expr × List Token)
  | 0, _ => .error .parseError
  | f + 1, toks => do
    let (a, rest) ← parseOrF f toks
    match rest with
    | Token.kwIf :: rest2 => do
      let (c, rest3) ← parseOrF f rest2
      match rest3 with
      | Token.kwElse :: rest4 => do
        let (b, rest5) ← parseTernaryF f rest4
        return (Expr.condE c a b, rest5)
      | _ => .error .parseError
    | _ => .ok (a, rest)

/-- Short-circuit `or` level: a left-associated chain of `or`. -/
def parseOrF : ℕ → List Token → Except EvalErr (Expr × List Token)
  | 0, _ => .error .parseError
  | f + 1, toks => do
    let (t, rest) ← parseAndF f toks
    parseOrRestF f t rest

/-- Left-associated continuation of the `or` level. -/
def parseOrRestF : ℕ → Expr → List Token → Except EvalErr (Expr × List Token)
  | 0, _, _ => .error .parseError
  | f + 1, acc, Token.kwOr :: rest => do
    let (t, r) ← parseAndF f rest
    parseOrRestF f (Expr.orE acc t) r
  | _ + 1, acc, toks => .ok (acc, toks)

/-- Short-circuit `and` level: a left-associated chain of `and`. -/
def parseAndF : ℕ → List Token → Except EvalErr (Expr × List Token)
  | 0, _ => .error .parseError
  | f + 1, toks => do
    let (t, rest) ← parseNotF f toks
    parseAndRestF f t rest

/-- Left-associated continuation of the `and` level. -/
def parseAndRestF : ℕ → Expr → List Token → Except EvalErr (Expr × List Token)
  | 0, _, _ => .error .parseError
  | f + 1, acc, Token.kwAnd :: rest => do
    let (t, r) ← parseNotF f rest
    parseAndRestF f (Expr.andE acc t) r
  | _ + 1, acc, toks => .ok (acc, toks)

/-- `not` level: `not` binds looser than arithmetic, tighter than `and`. -/
def parseNotF : ℕ → List Token → Except EvalErr (Expr × List Token)
  | 0, _ => .error .parseError
  | f + 1, Token.kwNot :: rest => do
    let (e, r) ← parseNotF f rest
    return (Expr.notE e, r)
  | f + 1, toks => parseExprF f toks

/-- Additive level: a term followed by a left-associated chain of
`+`/`-`. -/
def parseExprF : ℕ → List Token → Except EvalErr (Expr × List Token)
  | 0, _ => .error .parseError
  | f + 1, toks => do
    let (t, rest) ← parseTermF f toks
    parseExprRestF f t rest

/-- Left-associated continuation of the additive level. -/
def parseExprRestF : ℕ → Expr → List Token → Except EvalErr (Expr × List Token)
  | 0, _, _ => .error .parseError
  | f + 1, acc, Token.plus :: rest => do
    let (t, r) ← parseTermF f rest
    parseExprRestF f (Expr.add acc t) r
  | f + 1, acc, Token.minus :: rest => do
    let (t, r) ← parseTermF f rest
    parseExprRestF f (Expr.sub acc t) r
  | _ + 1, acc, toks => .ok (acc, toks)

/-- Multiplicative level: a factor followed by a left-associated chain of
`*`, `/` and `//`. -/
def parseTermF : ℕ → List Token → Except EvalErr (Expr × List Token)
  | 0, _ => .error .parseError
  | f + 1, toks => do
    let (t, rest) ← parseFactorF f toks
    parseTermRestF f t rest

/-- Left-associated continuation of the multiplicative level. -/
def parseTermRestF : ℕ → Expr → List Token → Except EvalErr (Expr × List Token)
  | 0, _, _ => .error .parseError
  | f + 1, acc, Token.star :: rest => do
    let (t, r) ← parseFactorF f rest
    parseTermRestF f (Expr.mul acc t) r
  | f + 1, acc, Token.slash :: rest => do
    let (t, r) ← parseFactorF f rest
    parseTermRestF f (Expr.div acc t) r
  | f + 1, acc, Token.dslash :: rest => do
    let (t, r) ← parseFactorF f rest
    parseTermRestF f (Expr.floordiv acc t) r
  | _ + 1, acc, toks => .ok (acc, toks)

/-- Unary level: Python's unary `+`/`-` bind tighter than `*` and `/` but
looser than `**` on the left. -/
def parseFactorF : ℕ → List Token → Except EvalErr (Expr × List Token)
  | 0, _ => .error .parseError
  | f + 1, Token.plus :: rest => do
    let (e, r) ← parseFactorF f rest
    return (Expr.pos e, r)
  | f + 1, Token.minus :: rest => do
    let (e, r) ← parseFactorF f rest
    return (Expr.neg e, r)
  | f + 1, toks => parsePowF f toks

/-- Power level: `**` is right-associative with its exponent at the unary
level, so `2**-1` and `2**3**2` parse as in Python. -/
def parsePowF : ℕ → List Token → Except EvalErr (Expr × List Token)
  | 0, _ => .error .parseError
  | f + 1, toks => do
    let (a, rest) ← parseAtomF f toks
    match rest with
    | Token.dstar :: rest2 => do
      let (b, r) ← parseFactorF f rest2
      return (Expr.pow a b, r)
    | _ => .ok (a, rest)

/-- Atoms: numeric literals, `None`, names, and parenthesised
expressions. -/
def parseAtomF : ℕ → List Token → Except EvalErr (Expr × List Token)
  | 0, _ => .error .parseError
  | _ + 1, Token.num q :: rest => .ok (Expr.num q, rest)
  | _ + 1, Token.noneLit :: rest => .ok (Expr.noneLit, rest)
  | _ + 1, Token.ident n :: rest => .ok (Expr.var n, rest)
  | f + 1, Token.lparen :: rest => do
    let (e, r) ← parseTernaryF f rest
    match r with
    | Token.rparen :: r2 => .ok (e, r2)
    | _ => .error .parseError
  | _ + 1, _ => .error .parseError

end

/-- Parse a full token list as one expression; leftover tokens are a
syntax error, as in Python.  The fuel bound is generous: the parser
consumes a token at least every sixteen nested calls. -/
def parseTokens (toks : List Token) : Except EvalErr Expr :=
  match parseTernaryF (16 * toks.length + 16) toks with
  | .ok (e, []) => .ok e
  | .ok (_, _ :: _) => .error .parseError
  | .error er => .error er

/-- Floor of a rational, written on its components so that it evaluates by
kernel reduction; equal to `Int.floor` by `Rat.floor_def`. -/
def ratFloor (q : ℚ) : ℤ :=
  q.num / q.den

/-- Python truthiness of a modelled value: a number is truthy iff nonzero,
`None` is falsy. -/
def truthy : PyVal → Bool
  | .num q => decide (q ≠ 0)
  | .none => false

/-- The numeric content of a value: the conversion `float(...)` applies to
the result, and arithmetic operators demand numbers; `None` raises
`TypeError` in both positions. -/
def numOf : PyVal → Except EvalErr ℚ
  | .num q => .ok q
  | .none => .error .typeError

/-- Evaluate an expression under the `eval` environment: operands are
evaluated left to right before an operator demands numbers; `or`, `and`
and conditional expressions short-circuit exactly as in Python and return
one of their operands' values; `/` is true division and `//` floor
division, both failing on a zero divisor; `**` with an integral exponent
is exact (with Python's `ZeroDivisionError` on `0 ** negative`), and with
a fractional exponent is outside the exact model. -/
def evalExpr : Expr → Except EvalErr PyVal
  | .num q => .ok (.num q)
  | .noneLit => .ok .none
  | .var n =>
    match lookupVar n with
    | some v => .ok v
    | Option.none => .error .nameError
  | .pos e => do
    let v ← evalExpr e
    let q ← numOf v
    return .num q
  | .neg e => do
    let v ← evalExpr e
    let q ← numOf v
    return .num (-q)
  | .add a b => do
    let va ← evalExpr a
    let vb ← evalExpr b
    let qa ← numOf va
    let qb ← numOf vb
    return .num (qa + qb)
  | .sub a b => do
    let va ← evalExpr a
    let vb ← evalExpr b
    let qa ← numOf va
    let qb ← numOf vb
    return .num (qa - qb)
  | .mul a b => do
    let va ← evalExpr a
    let vb ← evalExpr b
    let qa ← numOf va
    let qb ← numOf vb
    return .num (qa * qb)
  | .div a b => do
    let va ← evalExpr a
    let vb ← evalExpr b
    let qa ← numOf va
    let qb ← numOf vb
    if qb = 0 then .error .divByZero else return .num (qa / qb)
  | .floordiv a b => do
    let va ← evalExpr a
    let vb ← evalExpr b
    let qa ← numOf va
    let qb ← numOf vb
    if qb = 0 then .error .divByZero
    else return .num ((ratFloor (qa / qb) : ℚ))
  | .pow a b => do
    let va ← evalExpr a
    let vb ← evalExpr b
    let qa ← numOf va
    let qb ← numOf vb
    if qb.den = 1 then
      if qa = 0 ∧ qb.num < 0 then .error .divByZero
      else return .num (qa ^ qb.num)
    else .error .nonRationalPower
  | .orE a b => do
    let va ← evalExpr a
    if truthy va then return va else evalExpr b
  | .andE a b => do
    let va ← evalExpr a
    if truthy va then evalExpr b else return va
  | .notE e => do
    let va ← evalExpr e
    return .num (if truthy va then 0 else 1)
  | .condE c t e => do
    let vc ← evalExpr c
    if truthy vc then evalExpr t else evalExpr e

/-- All names referenced anywhere in an expression. -/
def exprNames : Expr → List String
  | .num _ => []
  | .noneLit => []
  | .var n => [n]
  | .pos e => exprNames e
  | .neg e => exprNames e
  | .add a b => exprNames a ++ exprNames b
  | .sub a b => exprNames a ++ exprNames b
  | .mul a b => exprNames a ++ exprNames b
  | .div a b => exprNames a ++ exprNames b
  | .floordiv a b => exprNames a ++ exprNames b
  | .pow a b => exprNames a ++ exprNames b
  | .orE a b => exprNames a ++ exprNames b
  | .andE a b => exprNames a ++ exprNames b
  | .notE e => exprNames e
  | .condE c t e => exprNames c ++ exprNames t ++ exprNames e

/-- Names every evaluation of the expression resolves: the right operands
of `or`/`and` and the branches of a conditional are excluded, since the
short circuit can skip them. -/
def strictNames : Expr → List String
  | .num _ => []
  | .noneLit => []
  | .var n => [n]
  | .pos e => strictNames e
  | .neg e => strictNames e
  | .add a b => strictNames a ++ strictNames b
  | .sub a b => strictNames a ++ strictNames b
  | .mul a b => strictNames a ++ strictNames b
  | .div a b => strictNames a ++ strictNames b
  | .floordiv a b => strictNames a ++ strictNames b
  | .pow a b => strictNames a ++ strictNames b
  | .orE a _ => strictNames a
  | .andE a _ => strictNames a
  | .notE e => strictNames e
  | .condE c _ _ => strictNames c

/-- The bracket removal of `safe_eval`:
`expr.replace('[','').replace(']','')`. -/
def stripBrackets (s : String) : String :=
  ⟨s.data.filter (fun c => c != '[' && c != ']')⟩

/-- The `SAFE_PATTERN.fullmatch` check: one or more allow-listed characters. -/
def safePattern (l : List Char) : Bool :=
  !l.isEmpty && l.all allowedChar

/-- Check and parse an already bracket-stripped character list: the
allow-list check of `safe_eval`, then the lexing/parsing phase of the
hosted `eval`. -/
def checkAndParse (l : List Char) : Except EvalErr Expr :=
  if safePattern l then do
    let toks ← lexChars l
    parseTokens toks
  else .error .unsafeExpression

/-- The parsing pipeline of `safe_eval` on a raw value string: strip
brackets, run the allow-list check, lex and parse. -/
def parsePipeline (s : String) : Except EvalErr Expr :=
  checkAndParse (stripBrackets s).data

/-- The `safe_eval` function of the script: strip brackets, reject
anything failing `SAFE_PATTERN`, evaluate with the `VARS` bindings, and
convert the result with `float(...)`. -/
def safe_eval (s : String) : Except EvalErr ℚ := do
  let e ← parsePipeline s
  let v ← evalExpr e
  numOf v

/-- Python's round-half-to-even on an exact rational: the nearest integer,
ties going to the even neighbour. -/
def roundHalfEven (q : ℚ) : ℤ :=
  if q - ratFloor q < 1 / 2 then ratFloor q
  else if 1 / 2 < q - ratFloor q then ratFloor q + 1
  else if ratFloor q % 2 = 0 then ratFloor q else ratFloor q + 1

/-- Python's `round(x, 3)`: round half to even at the third decimal. -/
def round3 (q : ℚ) : ℚ :=
  (roundHalfEven (q * 1000) : ℚ) / 1000

/-- The `clamp` helper of the script with its default bounds:
`max(0.0, min(100.0, v))`. -/
def clamp (v : ℚ) : ℚ :=
  max 0 (min 100 v)

/-- An output rectangle: `{"x": …, "y": …, "width": …, "height": …}`. -/
structure Zone where
  x : ℚ
  y : ℚ
  width : ℚ
  height : ℚ
deriving DecidableEq, Repr

/-- The zone computation of `convert` for one group whose four edges
evaluated to `L, R, T, B` (script lines 93–100): clamp the lesser edges,
subtract the clamped coordinates from the clamped greater edges, re-clamp,
keep the zone only if both extents are positive, and round each field to
three decimals. -/
def normalizeZone (L R T B : ℚ) : Option Zone :=
  let x := clamp (min L R)
  let y := clamp (min T B)
  let w := clamp (max L R) - x
  let h := clamp (max T B) - y
  let x2 := clamp x
  let y2 := clamp y
  let w2 := clamp w
  let h2 := clamp h
  if 0 < w2 ∧ 0 < h2 then
    some ⟨round3 x2, round3 y2, round3 w2, round3 h2⟩
  else none

/-- One parsed GridMove group: the raw value strings of the up-to-four
recognized keys (a Python dict restricted to those keys). -/
structure Group where
  gridLeft : Option String
  gridRight : Option String
  gridTop : Option String
  gridBottom : Option String
deriving DecidableEq, Repr

/-- The group with no recognized keys (an empty dict). -/
def emptyGroup : Group :=
  ⟨none, none, none, none⟩

/-- Python truthiness of a group dict: it holds at least one key. -/
def groupNonempty (g : Group) : Bool :=
  g.gridLeft.isSome || g.gridRight.isSome || g.gridTop.isSome || g.gridBottom.isSome

/-- A group holding all four grid-edge keys (the completeness test on
script line 87). -/
def completeGroup (g : Group) : Bool :=
  g.gridLeft.isSome && g.gridRight.isSome && g.gridTop.isSome && g.gridBottom.isSome

/-- Python's `str.strip`: drop whitespace from both ends. -/
def pyStrip (l : List Char) : List Char :=
  ((l.dropWhile pySpace).reverse.dropWhile pySpace).reverse

/-- Match of `re.match(r'^\[(\d+)\]', line)`: the line starts with `[`, one
or more digits, `]`; anything may follow. -/
def isHeaderLine (l : List Char) : Bool :=
  l.head? == some '[' && !((l.drop 1).takeWhile Char.isDigit).isEmpty &&
    ((l.drop 1).dropWhile Char.isDigit).head? == some ']'

/-- Match of `^<key>\s*=\s*(.+)$` for one fixed key name: the captured
value, or `none` when the line does not match. -/
def tryKey (key : String) (l : List Char) : Option String :=
  if l.take key.length = key.data then
    match (l.drop key.length).dropWhile pySpace with
    | '=' :: rest =>
      let v := rest.dropWhile pySpace
      if v.isEmpty then none else some ⟨v⟩
    | _ => none
  else none

/-- Match of the key/value regex
`^(GridTop|GridBottom|GridLeft|GridRight)\s*=\s*(.+)$`, trying the
alternatives in the order they appear in the pattern. -/
def matchKV (l : List Char) : Option (String × String) :=
  match tryKey "GridTop" l with
  | some v => some ("GridTop", v)
  | none =>
    match tryKey "GridBottom" l with
    | some v => some ("GridBottom", v)
    | none =>
      match tryKey "GridLeft" l with
      | some v => some ("GridLeft", v)
      | none =>
        match tryKey "GridRight" l with
        | some v => some ("GridRight", v)
        | none => none

/-- Store a recognized key's value in a group (`cur[key] = value`). -/
def setKey (g : Group) (k v : String) : Group :=
  if k = "GridTop" then { g with gridTop := some v }
  else if k = "GridBottom" then { g with gridBottom := some v }
  else if k = "GridLeft" then { g with gridLeft := some v }
  else { g with gridRight := some v }

/-- Parser state of `parse_groups`: the flushed groups and the group being
filled (`None` before the first header). -/
structure PState where
  groups : List Group
  cur : Option Group
deriving DecidableEq, Repr

/-- The flush `if cur: groups.append(cur)`: Python appends `cur` only when
it is neither `None` nor an empty dict. -/
def flushCur (cur : Option Group) : List Group :=
  match cur with
  | some g => if groupNonempty g then [g] else []
  | none => []

/-- One iteration of the `parse_groups` loop on a raw line. -/
def stepLine (st : PState) (raw : String) : PState :=
  let line := pyStrip raw.data
  if line.isEmpty || line.head? == some ';' then st
  else if isHeaderLine line then
    ⟨st.groups ++ flushCur st.cur, some emptyGroup⟩
  else
    match st.cur with
    | none => st
    | some g =>
      match matchKV line with
      | some (k, v) => ⟨st.groups, some (setKey g k v)⟩
      | none => st

/-- Split a character list at newline characters. -/
def splitLinesData : List Char → List (List Char)
  | [] => [[]]
  | '\n' :: rest => [] :: splitLinesData rest
  | c :: rest =>
    match splitLinesData rest with
    | [] => [[c]]
    | h :: t => (c :: h) :: t

/-- Split a text into lines at newline characters. -/
def splitLines (text : String) : List String :=
  (splitLinesData text.data).map (fun l => ⟨l⟩)

/-- The `parse_groups` function of the script: scan the lines, then flush
the final group under the same truthiness test. -/
def parse_groups (text : String) : List Group :=
  let st := (splitLines text).foldl stepLine ⟨[], none⟩
  st.groups ++ flushCur st.cur

/-- Zone contribution of one group in the `convert` loop: an incomplete
group is skipped before any evaluation; a complete one has its four edges
evaluated in source order (any failure aborts the run), then normalized. -/
def groupZone (g : Group) : Except EvalErr (Option Zone) :=
  match g.gridLeft, g.gridRight, g.gridTop, g.gridBottom with
  | some l, some r, some t, some b => do
    let L ← safe_eval l
    let R ← safe_eval r
    let T ← safe_eval t
    let B ← safe_eval b
    return normalizeZone L R T B
  | _, _, _, _ => .ok none

/-- The zone-accumulation loop of `convert` (before deduplication). -/
def collectZones : List Group → Except EvalErr (List Zone)
  | [] => .ok []
  | g :: gs => do
    let z ← groupZone g
    let rest ← collectZones gs
    return z.toList ++ rest

/-- The deduplication loop of `convert`: `seen` is the set of already
emitted coordinate tuples. -/
def dedupeGo (seen : List Zone) : List Zone → List Zone
  | [] => []
  | z :: rest =>
    if z ∈ seen then dedupeGo seen rest
    else z :: dedupeGo (z :: seen) rest

/-- Deduplicate a zone list by its rounded coordinate tuples. -/
def dedupe (zs : List Zone) : List Zone :=
  dedupeGo [] zs

/-- The `convert` function of the script: accumulate the zones of the
complete groups, then deduplicate. -/
def convert (groups : List Group) : Except EvalErr (List Zone) :=
  (collectZones groups).map dedupe

/-- A KZones layout object. -/
structure Layout where
  name : String
  padding : ℕ
  zones : List Zone
deriving DecidableEq, Repr

/-- The `make_layout` function: a single-element list holding one layout
named after the source stem. -/
def make_layout (zones : List Zone) (name : String) : List Layout :=
  [⟨name ++ " (converted)", 0, zones⟩]

/-- The conversion pipeline of `convert_file` up to the point where the
output file is written: `parse_groups`, `convert`, `make_layout`.  An
`error` result models the run aborting on a raised exception before the
output file is written. -/
def convert_file (stem text : String) : Except EvalErr (List Layout) := do
  let groups := parse_groups text
  let zones ← convert groups
  return make_layout zones stem

/-- Modelled from the spec (§4.4, for comparison with `dedupe`): retain the
first occurrence of each distinct rectangle tuple, in order of first
occurrence. -/
def firstOccurrences : List Zone → List Zone
  | [] => []
  | z :: rest => z :: firstOccurrences (rest.filter (fun a => a ≠ z))
termination_by l => l.length
decreasing_by
  simp only [List.length_cons]
  exact Nat.lt_succ_of_le (List.length_filter_le _ _)

/-- Modelled from the claim's words (C1, for comparison with
`normalizeZone`): subtract the raw lesser edge from the raw greater edge,
and only then clamp all four values. -/
def normalizeZoneClaimed (L R T B : ℚ) : Option Zone :=
  let x := min L R
  let y := min T B
  let w := max L R - x
  let h := max T B - y
  let x2 := clamp x
  let y2 := clamp y
  let w2 := clamp w
  let h2 := clamp h
  if 0 < w2 ∧ 0 < h2 then
    some ⟨round3 x2, round3 y2, round3 w2, round3 h2⟩
  else none


-- DecidableEq for Except, used to evaluate run outcomes on concrete inputs.
deriving instance DecidableEq for Except

theorem clamp_nonneg (v : ℚ) : 0 ≤ clamp v :=
  le_max_left 0 _

theorem clamp_le_100 (v : ℚ) : clamp v ≤ 100 := by
  unfold clamp
  exact max_le (by norm_num) (min_le_left _ _)

theorem clamp_eq_self {v : ℚ} (h0 : 0 ≤ v) (h1 : v ≤ 100) : clamp v = v := by
  unfold clamp
  rw [min_eq_right h1, max_eq_right h0]

theorem clamp_idem (v : ℚ) : clamp (clamp v) = clamp v :=
  clamp_eq_self (clamp_nonneg v) (clamp_le_100 v)

theorem clamp_mono {a b : ℚ} (h : a ≤ b) : clamp a ≤ clamp b := by
  unfold clamp
  exact max_le_max le_rfl (min_le_min le_rfl h)

theorem clamp_le_self {v : ℚ} (h : 0 ≤ v) : clamp v ≤ v := by
  unfold clamp
  exact max_le h (min_le_right _ _)

theorem ratFloor_eq_floor (q : ℚ) : ratFloor q = ⌊q⌋ := by
  rw [ratFloor, Rat.floor_def]

theorem roundHE_le (q : ℚ) : (roundHalfEven q : ℚ) ≤ q + 1 / 2 := by
  have h1 : (⌊q⌋ : ℚ) ≤ q := Int.floor_le q
  unfold roundHalfEven
  rw [ratFloor_eq_floor]
  split
  next => linarith
  next h2 =>
    rw [not_lt] at h2
    split
    next h3 => push_cast; linarith
    next h3 =>
      rw [not_lt] at h3
      split
      next => linarith
      next => push_cast; linarith

theorem roundHE_nonneg {q : ℚ} (h : 0 ≤ q) : 0 ≤ roundHalfEven q := by
  have h1 : (0 : ℤ) ≤ ⌊q⌋ := Int.le_floor.mpr (by exact_mod_cast h)
  unfold roundHalfEven
  rw [ratFloor_eq_floor]
  split
  next => omega
  next =>
    split
    next => omega
    next =>
      split
      next => omega
      next => omega

theorem roundHE_half_even {q : ℚ} (h : (roundHalfEven q : ℚ) = q + 1 / 2) :
    roundHalfEven q % 2 = 0 := by
  have h1 : (⌊q⌋ : ℚ) ≤ q := Int.floor_le q
  unfold roundHalfEven at h ⊢
  rw [ratFloor_eq_floor] at h ⊢
  split at h
  next h2 =>
    exfalso
    linarith
  next h2 =>
    rw [not_lt] at h2
    split at h
    next h3 =>
      exfalso
      push_cast at h
      linarith
    next h3 =>
      rw [not_lt] at h3
      split at h
      next h4 =>
        exfalso
        linarith
      next h4 =>
        rw [if_neg (not_lt.mpr h2), if_neg (not_lt.mpr h3), if_neg h4]
        omega

theorem roundHE_add_le (N : ℤ) {a b : ℚ} (hN : N % 2 = 0) (hab : a + b ≤ (N : ℚ)) :
    roundHalfEven a + roundHalfEven b ≤ N := by
  have ha := roundHE_le a
  have hb := roundHE_le b
  by_contra hlt
  push_neg at hlt
  have hle : roundHalfEven a + roundHalfEven b ≤ N + 1 := by
    have hq : (roundHalfEven a : ℚ) + (roundHalfEven b : ℚ) ≤ (N : ℚ) + 1 := by linarith
    exact_mod_cast hq
  have heq : roundHalfEven a + roundHalfEven b = N + 1 := by omega
  have heqQ : (roundHalfEven a : ℚ) + (roundHalfEven b : ℚ) = (N : ℚ) + 1 := by
    exact_mod_cast heq
  have ha2 : (roundHalfEven a : ℚ) = a + 1 / 2 := by linarith
  have hb2 : (roundHalfEven b : ℚ) = b + 1 / 2 := by linarith
  have pa := roundHE_half_even ha2
  have pb := roundHE_half_even hb2
  omega

theorem round3_nonneg {q : ℚ} (h : 0 ≤ q) : 0 ≤ round3 q := by
  unfold round3
  have h1 : (0 : ℤ) ≤ roundHalfEven (q * 1000) := roundHE_nonneg (by linarith)
  have h2 : (0 : ℚ) ≤ (roundHalfEven (q * 1000) : ℚ) := by exact_mod_cast h1
  exact div_nonneg h2 (by norm_num)

theorem round3_le_100 {q : ℚ} (h : q ≤ 100) : round3 q ≤ 100 := by
  unfold round3
  have h1 : (roundHalfEven (q * 1000) : ℚ) ≤ q * 1000 + 1 / 2 := roundHE_le _
  have h2 : (roundHalfEven (q * 1000) : ℚ) < 100001 := by linarith
  have h3 : roundHalfEven (q * 1000) < 100001 := by exact_mod_cast h2
  have h4 : roundHalfEven (q * 1000) ≤ 100000 := by omega
  have h5 : (roundHalfEven (q * 1000) : ℚ) ≤ 100000 := by exact_mod_cast h4
  linarith

theorem round3_add_le {a b : ℚ} (hab : a + b ≤ 100) :
    round3 a + round3 b ≤ 100 := by
  unfold round3
  have h1 : roundHalfEven (a * 1000) + roundHalfEven (b * 1000) ≤ 100000 :=
    roundHE_add_le 100000 (by norm_num) (by push_cast; linarith)
  have h2 : (roundHalfEven (a * 1000) : ℚ) + (roundHalfEven (b * 1000) : ℚ) ≤ 100000 := by
    exact_mod_cast h1
  linarith


theorem normalizeZone_some {L R T B : ℚ} {z : Zone}
    (h : normalizeZone L R T B = some z) :
    z.x = round3 (clamp (min L R)) ∧ z.y = round3 (clamp (min T B)) ∧
    z.width = round3 (clamp (clamp (max L R) - clamp (min L R))) ∧
    z.height = round3 (clamp (clamp (max T B) - clamp (min T B))) ∧
    0 < clamp (clamp (max L R) - clamp (min L R)) ∧
    0 < clamp (clamp (max T B) - clamp (min T B)) := by
  simp only [normalizeZone] at h
  rw [clamp_idem (min L R), clamp_idem (min T B)] at h
  split at h
  next hc =>
    simp only [Option.some.injEq] at h
    subst h
    exact ⟨rfl, rfl, rfl, rfl, hc.1, hc.2⟩
  next hc =>
    exact absurd h (by simp)

theorem normalizeZone_isSome (L R T B : ℚ) :
    (normalizeZone L R T B).isSome = true ↔
      (0 < clamp (clamp (max L R) - clamp (min L R)) ∧
       0 < clamp (clamp (max T B) - clamp (min T B))) := by
  simp only [normalizeZone]
  split
  next hc => simpa using hc
  next hc => simpa using hc

theorem zoneBounds {L R T B : ℚ} {z : Zone} (h : normalizeZone L R T B = some z) :
    0 ≤ z.x ∧ z.x ≤ 100 ∧ 0 ≤ z.y ∧ z.y ≤ 100 ∧
    z.x + z.width ≤ 100 ∧ z.y + z.height ≤ 100 := by
  obtain ⟨hx, hy, hw, hh, _, _⟩ := normalizeZone_some h
  have hxw : clamp (min L R) + clamp (clamp (max L R) - clamp (min L R)) ≤ 100 := by
    have hmono : clamp (min L R) ≤ clamp (max L R) := clamp_mono min_le_max
    have hd : 0 ≤ clamp (max L R) - clamp (min L R) := by linarith
    have hle := clamp_le_self hd
    have h100 := clamp_le_100 (max L R)
    linarith
  have hyh : clamp (min T B) + clamp (clamp (max T B) - clamp (min T B)) ≤ 100 := by
    have hmono : clamp (min T B) ≤ clamp (max T B) := clamp_mono min_le_max
    have hd : 0 ≤ clamp (max T B) - clamp (min T B) := by linarith
    have hle := clamp_le_self hd
    have h100 := clamp_le_100 (max T B)
    linarith
  refine ⟨?_, ?_, ?_, ?_, ?_, ?_⟩
  · rw [hx]; exact round3_nonneg (clamp_nonneg _)
  · rw [hx]; exact round3_le_100 (clamp_le_100 _)
  · rw [hy]; exact round3_nonneg (clamp_nonneg _)
  · rw [hy]; exact round3_le_100 (clamp_le_100 _)
  · rw [hx, hw]; exact round3_add_le hxw
  · rw [hy, hh]; exact round3_add_le hyh

/-- C1, corrected.  The claim computes `width = max(L,R) − x` from the raw
`x = min(L,R)` and clamps only afterwards; the code (line 95) subtracts the
already-clamped `x` from the clamped greater edge.  At `L = -50, R = 50,
T = 0, B = 50` the code emits width 50 while the claimed formula gives
width 100. -/
theorem C1_counterexample :
    normalizeZone (-50) 50 0 50 = some ⟨0, 0, 50, 50⟩ ∧
    normalizeZoneClaimed (-50) 50 0 50 = some ⟨0, 0, 100, 50⟩ ∧
    normalizeZone (-50) 50 0 50 ≠ normalizeZoneClaimed (-50) 50 0 50 := by
  with_unfolding_all decide

/-- C1, amended: every zone emitted by the normalizer for edge values
`L, R, T, B` has `x = round3(clamp(min L R))`, `y = round3(clamp(min T B))`,
`width = round3(clamp(clamp(max L R) − clamp(min L R)))` — the subtraction
uses the already-clamped `x` — and height analogously; all four fields are
rounded to three decimals. -/
theorem C1_normalizer_formula {L R T B : ℚ} {z : Zone}
    (h : normalizeZone L R T B = some z) :
    z.x = round3 (clamp (min L R)) ∧ z.y = round3 (clamp (min T B)) ∧
    z.width = round3 (clamp (clamp (max L R) - clamp (min L R))) ∧
    z.height = round3 (clamp (clamp (max T B) - clamp (min T B))) := by
  obtain ⟨hx, hy, hw, hh, _, _⟩ := normalizeZone_some h
  exact ⟨hx, hy, hw, hh⟩

theorem C1_normalizer_formula_witness :
    (Zone.mk 0 0 50 50).x = round3 (clamp (min (-50 : ℚ) 50)) ∧
    (Zone.mk 0 0 50 50).y = round3 (clamp (min (0 : ℚ) 50)) ∧
    (Zone.mk 0 0 50 50).width
      = round3 (clamp (clamp (max (-50 : ℚ) 50) - clamp (min (-50 : ℚ) 50))) ∧
    (Zone.mk 0 0 50 50).height
      = round3 (clamp (clamp (max (0 : ℚ) 50) - clamp (min (0 : ℚ) 50))) :=
  C1_normalizer_formula (by with_unfolding_all decide)

/-- C2, corrected.  The bounds `0 ≤ x ≤ 100` and `0 ≤ y ≤ 100` do hold, but
contrary to the claim `x + width ≤ 100` is also guaranteed: the width is
computed from the already-clamped `x` (line 95), so `x + width` never
exceeds the clamped greater edge, and rounding both fields half-to-even
cannot push the sum past 100.  No group whatsoever emits a rectangle with
`x + width > 100`. -/
theorem C2_counterexample :
    ¬ ∃ (L R T B : ℚ) (z : Zone),
        normalizeZone L R T B = some z ∧ 100 < z.x + z.width := by
  rintro ⟨L, R, T, B, z, h, hgt⟩
  have hb := (zoneBounds h).2.2.2.2.1
  linarith

/-- C2, amended: for every group whose four edges evaluate to numbers, the
emitted rectangle satisfies `0 ≤ x ≤ 100`, `0 ≤ y ≤ 100`, and moreover
`x + width ≤ 100` and `y + height ≤ 100` are guaranteed. -/
theorem C2_zone_invariants {L R T B : ℚ} {z : Zone}
    (h : normalizeZone L R T B = some z) :
    0 ≤ z.x ∧ z.x ≤ 100 ∧ 0 ≤ z.y ∧ z.y ≤ 100 ∧
    z.x + z.width ≤ 100 ∧ z.y + z.height ≤ 100 :=
  zoneBounds h

theorem C2_zone_invariants_witness :
    0 ≤ (Zone.mk 40 0 20 50).x ∧ (Zone.mk 40 0 20 50).x ≤ 100 ∧
    0 ≤ (Zone.mk 40 0 20 50).y ∧ (Zone.mk 40 0 20 50).y ≤ 100 ∧
    (Zone.mk 40 0 20 50).x + (Zone.mk 40 0 20 50).width ≤ 100 ∧
    (Zone.mk 40 0 20 50).y + (Zone.mk 40 0 20 50).height ≤ 100 :=
  @C2_zone_invariants 60 40 0 50 ⟨40, 0, 20, 50⟩ (by with_unfolding_all decide)

/-- C3, corrected.  The positivity filter (line 99) tests the clamped width
and height before rounding, so a positive width below 0.0005 passes the
filter and is then rounded to 0: the group `GridLeft=0, GridRight=0.0004,
GridTop=0, GridBottom=50` puts the rectangle `(0, 0, 0, 50)` — of zero
width — into the output. -/
theorem C3_counterexample :
    convert [⟨some "0", some "0.0004", some "0", some "50"⟩] = .ok [⟨0, 0, 0, 50⟩] ∧
    ¬ (0 < (Zone.mk 0 0 0 50).width) := by
  with_unfolding_all decide

/-- C3, amended: the positivity filter is applied to the clamped width and
height before rounding — a zone is emitted exactly when both pre-rounding
extents are positive — and the rounded fields of an emitted zone satisfy
only `width ≥ 0` and `height ≥ 0` (zero is possible).  Degenerate groups
whose edges evaluate produce no zone and raise no error: a complete group
always yields `.ok` when its four edges evaluate. -/
theorem C3_positivity_filter :
    (∀ (L R T B : ℚ) (z : Zone), normalizeZone L R T B = some z →
      0 ≤ z.width ∧ 0 ≤ z.height) ∧
    (∀ L R T B : ℚ, (normalizeZone L R T B).isSome = true ↔
      (0 < clamp (clamp (max L R) - clamp (min L R)) ∧
       0 < clamp (clamp (max T B) - clamp (min T B)))) ∧
    (∀ (l r t b : String) (L R T B : ℚ),
      safe_eval l = .ok L → safe_eval r = .ok R →
      safe_eval t = .ok T → safe_eval b = .ok B →
      groupZone ⟨some l, some r, some t, some b⟩ = .ok (normalizeZone L R T B)) := by
  refine ⟨?_, normalizeZone_isSome, ?_⟩
  · intro L R T B z h
    obtain ⟨_, _, hw, hh, hwp, hhp⟩ := normalizeZone_some h
    constructor
    · rw [hw]; exact round3_nonneg (le_of_lt hwp)
    · rw [hh]; exact round3_nonneg (le_of_lt hhp)
  · intro l r t b L R T B hl hr ht hb
    simp only [groupZone, hl, hr, ht, hb]
    rfl

theorem C3_positivity_filter_witness :
    (0 ≤ (Zone.mk 0 0 0 50).width ∧ 0 ≤ (Zone.mk 0 0 0 50).height) ∧
    groupZone ⟨some "0", some "60", some "0", some "50"⟩
      = .ok (normalizeZone 0 60 0 50) :=
  ⟨C3_positivity_filter.1 0 (1 / 2500) 0 50 ⟨0, 0, 0, 50⟩ (by with_unfolding_all decide),
   C3_positivity_filter.2.2 "0" "60" "0" "50" 0 60 0 50
     (by with_unfolding_all decide) (by with_unfolding_all decide)
     (by with_unfolding_all decide) (by with_unfolding_all decide)⟩


/-- C4, corrected.  The value `DROP TABLE` passes the character allow-list
(letters and a space are all permitted), so the failure is not the
`Unsafe/unsupported expression` `ValueError` of `safe_eval`: it is the
syntax error raised by the hosted evaluation of two adjacent names. -/
theorem C4_counterexample :
    safe_eval "DROP TABLE" = .error .parseError ∧
    EvalErr.parseError ≠ EvalErr.unsafeExpression := by
  with_unfolding_all decide

/-- C4, amended: evaluating `GridLeft=DROP TABLE` (the other three grid keys
present in the same group) fails — with the syntax error of the hosted
evaluation, not the allow-list error — and the failure propagates and
aborts the whole run before the output file is written. -/
theorem C4_run_aborts :
    safe_eval "DROP TABLE" = .error .parseError ∧
    convert_file "grid"
        "[1]\nGridLeft=DROP TABLE\nGridRight=100\nGridTop=0\nGridBottom=100"
      = .error .parseError := by
  with_unfolding_all decide

theorem isHeader_shape {l : List Char} (h : isHeaderLine l = true) :
    l.head? = some '[' := by
  unfold isHeaderLine at h
  simp only [Bool.and_eq_true, beq_iff_eq] at h
  exact h.1.1

theorem stepLine_header {st : PState} {raw : String}
    (h : isHeaderLine (pyStrip raw.data) = true) :
    stepLine st raw = ⟨st.groups ++ flushCur st.cur, some emptyGroup⟩ := by
  have hh := isHeader_shape h
  have hne : (pyStrip raw.data).isEmpty = false := by
    cases hl : pyStrip raw.data with
    | nil => rw [hl] at hh; exact absurd hh (by simp)
    | cons c cs => rfl
  have hsemi : ((pyStrip raw.data).head? == some ';') = false := by
    rw [hh]
    rfl
  simp only [stepLine, hne, hsemi, h, Bool.or_self, Bool.false_eq_true, if_false, if_true]

/-- C5, corrected.  At the second header line the previous group is empty
(`[1]` was followed by no recognized key), and Python's `if cur:` treats
the empty dict as falsy: the empty group is NOT flushed into the output
list, so the parse yields one group, not two. -/
theorem C5_counterexample :
    parse_groups "[1]\n[2]\nGridLeft=1" = [⟨some "1", none, none, none⟩] ∧
    emptyGroup ∉ parse_groups "[1]\n[2]\nGridLeft=1" := by
  with_unfolding_all decide

/-- C5, amended: every line matching a bracketed integer header starts a new
empty group, and the previous group is flushed into the output list iff it
holds at least one recognized key — a previous group with no recognized
keys is silently discarded, not flushed. -/
theorem C5_header_flush : ∀ (st : PState) (raw : String),
    isHeaderLine (pyStrip raw.data) = true →
    ((stepLine st raw).cur = some emptyGroup ∧
     (st.cur = none → (stepLine st raw).groups = st.groups) ∧
     (∀ g, st.cur = some g → groupNonempty g = true →
        (stepLine st raw).groups = st.groups ++ [g]) ∧
     (∀ g, st.cur = some g → groupNonempty g = false →
        (stepLine st raw).groups = st.groups)) := by
  intro st raw h
  rw [stepLine_header h]
  refine ⟨rfl, ?_, ?_, ?_⟩
  · intro hc
    simp [flushCur, hc]
  · intro g hc hne
    simp [flushCur, hc, hne]
  · intro g hc hne
    simp [flushCur, hc, hne]

theorem C5_header_flush_witness :
    (stepLine ⟨[], some ⟨some "1", none, none, none⟩⟩ "[2]").groups
      = [] ++ [⟨some "1", none, none, none⟩] ∧
    (stepLine ⟨[], some emptyGroup⟩ "[2]").groups = [] ∧
    (stepLine ⟨[], some emptyGroup⟩ "[2]").cur = some emptyGroup :=
  ⟨(C5_header_flush ⟨[], some ⟨some "1", none, none, none⟩⟩ "[2]" (by decide)).2.2.1
      ⟨some "1", none, none, none⟩ rfl (by decide),
   (C5_header_flush ⟨[], some emptyGroup⟩ "[2]" (by decide)).2.2.2
      emptyGroup rfl (by decide),
   (C5_header_flush ⟨[], some emptyGroup⟩ "[2]" (by decide)).1⟩

/-- C6, confirmed: the five-line half-screen template converts to exactly
one zone `(0, 0, 50, 50)` under the fixed bindings
`Monitor1Width = Monitor1Height = 100`. -/
theorem C6_half_grid :
    convert (parse_groups
        "[1]\nGridLeft=0\nGridRight=[Monitor1Width]/2\nGridTop=0\nGridBottom=[Monitor1Height]/2")
      = .ok [⟨0, 0, 50, 50⟩] := by
  with_unfolding_all decide


theorem exceptBind_ok {α β : Type} (x : α) (k : α → Except EvalErr β) :
    (Except.ok x >>= k) = k x := rfl

theorem exceptBind_error {α β : Type} (er : EvalErr) (k : α → Except EvalErr β) :
    ((Except.error er : Except EvalErr α) >>= k) = Except.error er := rfl

theorem dedupeGo_eq (zs : List Zone) : ∀ seen : List Zone,
    dedupeGo seen zs = firstOccurrences (zs.filter (fun a => a ∉ seen)) := by
  induction zs with
  | nil => intro seen; simp [dedupeGo, firstOccurrences]
  | cons z rest ih =>
    intro seen
    by_cases hz : z ∈ seen
    · have hf : (decide (z ∉ seen)) = false := by simp [hz]
      simp only [dedupeGo, if_pos hz, List.filter_cons, hf, Bool.false_eq_true, if_false]
      exact ih seen
    · have hf : (decide (z ∉ seen)) = true := by simp [hz]
      simp only [dedupeGo, if_neg hz, List.filter_cons, hf, if_true]
      rw [firstOccurrences, ih (z :: seen)]
      congr 1
      rw [List.filter_filter]
      apply congrArg
      apply List.filter_congr
      intro a _
      by_cases h1 : a = z <;> by_cases h2 : a ∈ seen <;> simp [h1, h2]

theorem mem_firstOccurrences {a : Zone} : ∀ {l : List Zone},
    a ∈ firstOccurrences l ↔ a ∈ l := by
  intro l
  induction l using firstOccurrences.induct with
  | case1 => simp [firstOccurrences]
  | case2 z rest ih =>
    rw [firstOccurrences]
    simp only [List.mem_cons]
    constructor
    · rintro (rfl | h)
      · exact Or.inl rfl
      · exact Or.inr (List.mem_filter.mp (ih.mp h)).1
    · rintro (rfl | h)
      · exact Or.inl rfl
      · by_cases ha : a = z
        · exact Or.inl ha
        · exact Or.inr (ih.mpr (List.mem_filter.mpr ⟨h, by simp [ha]⟩))

theorem nodup_firstOccurrences : ∀ l : List Zone, (firstOccurrences l).Nodup := by
  intro l
  induction l using firstOccurrences.induct with
  | case1 => simp [firstOccurrences]
  | case2 z rest ih =>
    rw [firstOccurrences]
    refine List.nodup_cons.mpr ⟨?_, ih⟩
    intro hmem
    have h2 := (List.mem_filter.mp (mem_firstOccurrences.mp hmem)).2
    simp at h2

/-- C7, confirmed: the deduplication loop returns exactly the first
occurrence of each distinct rounded coordinate tuple, in order of first
occurrence (it equals the specification function `firstOccurrences`), and
in particular every rectangle occurring in the input list appears exactly
once in the result. -/
theorem C7_dedupe_first_occurrences (zs : List Zone) :
    dedupe zs = firstOccurrences zs ∧
    ∀ z ∈ zs, (dedupe zs).count z = 1 := by
  have hd : dedupe zs = firstOccurrences zs := by
    unfold dedupe
    rw [dedupeGo_eq]
    congr 1
    apply List.filter_eq_self.mpr
    intro a _
    simp
  refine ⟨hd, ?_⟩
  intro z hz
  rw [hd]
  exact List.nodup_iff_count_eq_one.mp (nodup_firstOccurrences zs) z
    (mem_firstOccurrences.mpr hz)

theorem C7_dedupe_first_occurrences_witness :
    dedupe [Zone.mk 0 0 50 50, Zone.mk 0 0 50 50]
      = firstOccurrences [Zone.mk 0 0 50 50, Zone.mk 0 0 50 50] ∧
    (dedupe [Zone.mk 0 0 50 50, Zone.mk 0 0 50 50]).count (Zone.mk 0 0 50 50) = 1 :=
  ⟨(C7_dedupe_first_occurrences [Zone.mk 0 0 50 50, Zone.mk 0 0 50 50]).1,
   (C7_dedupe_first_occurrences [Zone.mk 0 0 50 50, Zone.mk 0 0 50 50]).2
     (Zone.mk 0 0 50 50) (by decide)⟩

theorem evalExpr_ok_strictNames : ∀ {e : Expr} {v : PyVal}, evalExpr e = .ok v →
    ∀ n ∈ strictNames e, (lookupVar n).isSome = true := by
  intro e
  induction e with
  | num q =>
    intro v h n hn
    simp [strictNames] at hn
  | noneLit =>
    intro v h n hn
    simp [strictNames] at hn
  | var m =>
    intro v h n hn
    simp only [strictNames, List.mem_singleton] at hn
    subst hn
    simp only [evalExpr] at h
    cases hl : lookupVar n with
    | some w => simp
    | none => rw [hl] at h; exact absurd h (by simp)
  | pos e ih =>
    intro v h n hn
    simp only [strictNames] at hn
    simp only [evalExpr] at h
    cases he : evalExpr e with
    | error er => rw [he, exceptBind_error] at h; exact Except.noConfusion h
    | ok w => exact ih he n hn
  | neg e ih =>
    intro v h n hn
    simp only [strictNames] at hn
    simp only [evalExpr] at h
    cases he : evalExpr e with
    | error er => rw [he, exceptBind_error] at h; exact Except.noConfusion h
    | ok w => exact ih he n hn
  | add a b iha ihb =>
    intro v h n hn
    simp only [strictNames, List.mem_append] at hn
    simp only [evalExpr] at h
    cases ha : evalExpr a with
    | error er => rw [ha, exceptBind_error] at h; exact Except.noConfusion h
    | ok x =>
      rw [ha, exceptBind_ok] at h
      cases hb : evalExpr b with
      | error er => rw [hb, exceptBind_error] at h; exact Except.noConfusion h
      | ok y =>
        rcases hn with hn | hn
        · exact iha ha n hn
        · exact ihb hb n hn
  | sub a b iha ihb =>
    intro v h n hn
    simp only [strictNames, List.mem_append] at hn
    simp only [evalExpr] at h
    cases ha : evalExpr a with
    | error er => rw [ha, exceptBind_error] at h; exact Except.noConfusion h
    | ok x =>
      rw [ha, exceptBind_ok] at h
      cases hb : evalExpr b with
      | error er => rw [hb, exceptBind_error] at h; exact Except.noConfusion h
      | ok y =>
        rcases hn with hn | hn
        · exact iha ha n hn
        · exact ihb hb n hn
  | mul a b iha ihb =>
    intro v h n hn
    simp only [strictNames, List.mem_append] at hn
    simp only [evalExpr] at h
    cases ha : evalExpr a with
    | error er => rw [ha, exceptBind_error] at h; exact Except.noConfusion h
    | ok x =>
      rw [ha, exceptBind_ok] at h
      cases hb : evalExpr b with
      | error er => rw [hb, exceptBind_error] at h; exact Except.noConfusion h
      | ok y =>
        rcases hn with hn | hn
        · exact iha ha n hn
        · exact ihb hb n hn
  | div a b iha ihb =>
    intro v h n hn
    simp only [strictNames, List.mem_append] at hn
    simp only [evalExpr] at h
    cases ha : evalExpr a with
    | error er => rw [ha, exceptBind_error] at h; exact Except.noConfusion h
    | ok x =>
      rw [ha, exceptBind_ok] at h
      cases hb : evalExpr b with
      | error er => rw [hb, exceptBind_error] at h; exact Except.noConfusion h
      | ok y =>
        rcases hn with hn | hn
        · exact iha ha n hn
        · exact ihb hb n hn
  | floordiv a b iha ihb =>
    intro v h n hn
    simp only [strictNames, List.mem_append] at hn
    simp only [evalExpr] at h
    cases ha : evalExpr a with
    | error er => rw [ha, exceptBind_error] at h; exact Except.noConfusion h
    | ok x =>
      rw [ha, exceptBind_ok] at h
      cases hb : evalExpr b with
      | error er => rw [hb, exceptBind_error] at h; exact Except.noConfusion h
      | ok y =>
        rcases hn with hn | hn
        · exact iha ha n hn
        · exact ihb hb n hn
  | pow a b iha ihb =>
    intro v h n hn
    simp only [strictNames, List.mem_append] at hn
    simp only [evalExpr] at h
    cases ha : evalExpr a with
    | error er => rw [ha, exceptBind_error] at h; exact Except.noConfusion h
    | ok x =>
      rw [ha, exceptBind_ok] at h
      cases hb : evalExpr b with
      | error er => rw [hb, exceptBind_error] at h; exact Except.noConfusion h
      | ok y =>
        rcases hn with hn | hn
        · exact iha ha n hn
        · exact ihb hb n hn
  | orE a b iha ihb =>
    intro v h n hn
    simp only [strictNames] at hn
    simp only [evalExpr] at h
    cases ha : evalExpr a with
    | error er => rw [ha, exceptBind_error] at h; exact Except.noConfusion h
    | ok w => exact iha ha n hn
  | andE a b iha ihb =>
    intro v h n hn
    simp only [strictNames] at hn
    simp only [evalExpr] at h
    cases ha : evalExpr a with
    | error er => rw [ha, exceptBind_error] at h; exact Except.noConfusion h
    | ok w => exact iha ha n hn
  | notE e ih =>
    intro v h n hn
    simp only [strictNames] at hn
    simp only [evalExpr] at h
    cases he : evalExpr e with
    | error er => rw [he, exceptBind_error] at h; exact Except.noConfusion h
    | ok w => exact ih he n hn
  | condE c t e ihc iht ihe =>
    intro v h n hn
    simp only [strictNames] at hn
    simp only [evalExpr] at h
    cases hc : evalExpr c with
    | error er => rw [hc, exceptBind_error] at h; exact Except.noConfusion h
    | ok w => exact ihc hc n hn

/-- C8, corrected.  The unbound-name half of the claim is false of the
program: `or`, `and` and conditional expressions short-circuit, so
`Monitor1Width or foo` passes the allow-list, references the unbound name
`foo`, and still evaluates to 100.0 (the truthy left operand); and
`__builtins__ or 1` evaluates to 1.0 while resolving `__builtins__`, a
seventh name the globals dict binds to `None`. -/
theorem C8_counterexample :
    parsePipeline "Monitor1Width or foo"
      = .ok (Expr.orE (Expr.var "Monitor1Width") (Expr.var "foo")) ∧
    "foo" ∈ exprNames (Expr.orE (Expr.var "Monitor1Width") (Expr.var "foo")) ∧
    lookupVar "foo" = Option.none ∧
    safe_eval "Monitor1Width or foo" = .ok 100 ∧
    safe_eval "__builtins__ or 1" = .ok 1 := by
  with_unfolding_all decide

/-- C8, amended: any expression whose bracket-stripped text has a
character outside the allow-list fails with the unsafe-expression error;
and an expression that parses and *strictly* references a name other than
the bound ones — in a position the `or`/`and`/conditional short circuit
cannot skip — does not evaluate to a value.  (An unbound name in a
short-circuited position does not prevent evaluation, see
`C8_counterexample`.) -/
theorem C8_allowlist_and_unbound_names : ∀ s : String,
    ((∃ c ∈ (stripBrackets s).data, allowedChar c = false) →
      safe_eval s = .error .unsafeExpression) ∧
    (∀ e, parsePipeline s = .ok e →
      (∃ n ∈ strictNames e, lookupVar n = Option.none) →
      ∀ v, safe_eval s ≠ .ok v) := by
  intro s
  constructor
  · rintro ⟨c, hc, hbad⟩
    have hall : (stripBrackets s).data.all allowedChar = false :=
      List.all_eq_false.mpr ⟨c, hc, by simp [hbad]⟩
    have hsp : safePattern (stripBrackets s).data = false := by
      unfold safePattern
      rw [hall, Bool.and_false]
    unfold safe_eval parsePipeline checkAndParse
    rw [hsp]
    rfl
  · intro e hp hex v hok
    obtain ⟨n, hn, hnone⟩ := hex
    unfold safe_eval at hok
    rw [hp, exceptBind_ok] at hok
    cases hev : evalExpr e with
    | error er => rw [hev, exceptBind_error] at hok; exact Except.noConfusion hok
    | ok w =>
      have := evalExpr_ok_strictNames hev n hn
      rw [hnone] at this
      exact absurd this (by simp)

theorem C8_allowlist_and_unbound_names_witness :
    safe_eval "a?b" = .error .unsafeExpression ∧
    safe_eval "foo" ≠ .ok 0 :=
  ⟨(C8_allowlist_and_unbound_names "a?b").1 ⟨'?', by decide, by decide⟩,
   (C8_allowlist_and_unbound_names "foo").2 (Expr.var "foo")
     (by with_unfolding_all decide) ⟨"foo", by decide, by decide⟩ 0⟩

theorem groupZone_incomplete {g : Group} (h : completeGroup g = false) :
    groupZone g = .ok none := by
  obtain ⟨l, r, t, b⟩ := g
  cases l <;> cases r <;> cases t <;> cases b <;>
    first
      | rfl
      | exact absurd h (by simp [completeGroup])

theorem collectZones_cons_none {g : Group} (h : groupZone g = .ok none)
    (gs : List Group) : collectZones (g :: gs) = collectZones gs := by
  simp only [collectZones]
  rw [h, exceptBind_ok]
  cases hgs : collectZones gs with
  | error er => rfl
  | ok zs => rfl

/-- C9, confirmed: a group missing at least one of the four grid keys is
skipped before any of its values is evaluated — removing it from the group
list leaves the result of `convert` unchanged, with no error and no zone
contributed. -/
theorem C9_incomplete_group_skipped : ∀ (gs₁ gs₂ : List Group) (g : Group),
    completeGroup g = false →
    convert (gs₁ ++ g :: gs₂) = convert (gs₁ ++ gs₂) := by
  intro gs₁ gs₂ g hg
  unfold convert
  congr 1
  induction gs₁ with
  | nil =>
    exact collectZones_cons_none (groupZone_incomplete hg) gs₂
  | cons g2 rest ih =>
    simp only [List.cons_append, collectZones, List.append_eq, ih]

theorem C9_incomplete_group_skipped_witness :
    convert [Group.mk (some "0") none none none] = convert [] :=
  C9_incomplete_group_skipped [] [] (Group.mk (some "0") none none none) (by decide)

theorem stripBrackets_idem (s : String) :
    stripBrackets (stripBrackets s) = stripBrackets s := by
  unfold stripBrackets
  apply congrArg
  rw [List.filter_filter]
  apply List.filter_congr
  intro a _
  exact Bool.and_self _

/-- C10, confirmed: `safe_eval` deletes every bracket character before any
other processing, so its outcome on a string and on that string with all
brackets removed is identical; in particular `Moni[tor1]Width` evaluates
to 100 exactly like `Monitor1Width`. -/
theorem C10_bracket_placement_irrelevant :
    (∀ s : String, safe_eval s = safe_eval (stripBrackets s)) ∧
    safe_eval "Moni[tor1]Width" = .ok 100 ∧
    safe_eval "Monitor1Width" = .ok 100 := by
  refine ⟨?_, by with_unfolding_all decide, by with_unfolding_all decide⟩
  intro s
  unfold safe_eval parsePipeline
  rw [stripBrackets_idem]

end GM
